import Mathlib

/-!
Verification of the guidify plugin core (src/main.ts).

The TypeScript source is shallowly embedded.  Strings and slash separated
paths are Lean strings; the compiled ignore list is modelled as the list of
languages of the successfully compiled regular expressions, a language being
a Boolean predicate giving exact matches; the asynchronous create handler is
split into its synchronous filter stage and its delayed commit stage, each a
pure function of the data it reads; the host state observed inside the
delayed callback (existence of the file, content read outcome, rename
outcome) is passed in explicitly.
-/

namespace Guidify

/-- JavaScript `s.split(sep)` for a one character separator, on character
lists.  Splitting the empty string gives one empty field, so the empty list
maps to a singleton empty group. -/
def splitOnChar (sep : Char) : List Char → List (List Char)
  | [] => [[]]
  | c :: cs =>
    match splitOnChar sep cs with
    | g :: gs => if c = sep then [] :: g :: gs else (c :: g) :: gs
    | [] => [[c]]

/-- `parts.join(sep)` on character lists: the groups with the separator
reinserted between consecutive groups. -/
def joinWithChar (sep : Char) : List (List Char) → List Char
  | [] => []
  | [g] => g
  | g :: gs => g ++ sep :: joinWithChar sep gs

/-- JavaScript `trim`, restricted to ASCII whitespace. -/
def trimStr (s : String) : String :=
  String.mk (((s.toList.dropWhile Char.isWhitespace).reverse.dropWhile
    Char.isWhitespace).reverse)

/-- Strip leading slashes, as the first replacement in the base directory
normalization of src/main.ts line 43 does. -/
def dropLeadingSlashes (s : String) : String :=
  String.mk (s.toList.dropWhile (fun c => c == '/'))

/-- Strip trailing slashes, as the second replacement in the base directory
normalization of src/main.ts line 43 does. -/
def dropTrailingSlashes (s : String) : String :=
  String.mk ((s.toList.reverse.dropWhile (fun c => c == '/')).reverse)

/-- One CSV entry after trimming and slash stripping. -/
def normalizeDir (d : String) : String :=
  dropTrailingSlashes (dropLeadingSlashes (trimStr d))

/-- `raw.split(",")` on strings. -/
def splitCSV (s : String) : List String :=
  (splitOnChar ',' s.toList).map String.mk

/-- src/main.ts line 43: split the base directory setting on commas,
normalize each entry, and discard entries that normalize to the empty
string. -/
def normalizeBaseDirs (baseDirSetting : String) : List String :=
  ((splitCSV baseDirSetting).map normalizeDir).filter (fun d => d != "")

/-- `file.path.split("/")`. -/
def splitPath (path : String) : List String :=
  (splitOnChar '/' path.toList).map String.mk

/-- `parts.join("/")` on strings. -/
def joinSlash : List String → String
  | [] => ""
  | [p] => p
  | p :: ps => p ++ "/" ++ joinSlash ps

/-- `parts.slice(0, -1).join("/")`: the immediate parent path. -/
def parentOf (path : String) : String := joinSlash (splitPath path).dropLast

/-- `parts[parts.length - 1]`: the filename with its extension. -/
def fileNameOf (path : String) : String := (splitPath path).getLastD ""

/-- The extension field of an Obsidian file handle, modelled as the text
after the last dot of the filename, empty when the filename has no dot. -/
def fileExtension (filename : String) : String :=
  let rev := filename.toList.reverse
  let suffix := rev.takeWhile (fun c => c != '.')
  if suffix.length = rev.length then "" else String.mk suffix.reverse

/-- The stem computation of src/main.ts lines 63 and 147: the replacement
deletes a final dot followed by one or more characters none of which is a
dot or a slash; when no such suffix exists the filename is returned
unchanged. -/
def stemOf (filename : String) : String :=
  let rev := filename.toList.reverse
  let suffix := rev.takeWhile (fun c => c != '.' && c != '/')
  match rev.drop suffix.length with
  | '.' :: before => if suffix.isEmpty then filename else String.mk before.reverse
  | _ => filename

/-- Membership in the hex character class under the case insensitive flag:
digits, lowercase a to f, uppercase A to F. -/
def isHexDigit (c : Char) : Bool :=
  decide ((48 ≤ c.toNat ∧ c.toNat ≤ 57) ∨ (97 ≤ c.toNat ∧ c.toNat ≤ 102) ∨
    (65 ≤ c.toNat ∧ c.toNat ≤ 70))

/-- Index positions of the four dashes in the canonical 8-4-4-4-12 layout. -/
def dashPositions : List Nat := [8, 13, 18, 23]

/-- The anchored case insensitive GUID regex of src/main.ts lines 64 and
148: exactly thirty six characters, dashes exactly at indices 8, 13, 18 and
23, hex digits everywhere else. -/
def isGuidName (s : String) : Bool :=
  let cs := s.toList
  cs.length == 36 &&
    (List.range 36).all (fun i =>
      if i ∈ dashPositions then cs.getD i ' ' == '-' else isHexDigit (cs.getD i ' '))

/-- Scan for an occurrence of the two character closer of a templater tag. -/
def hasCloseTag : List Char → Bool
  | '%' :: '>' :: _ => true
  | _ :: cs => hasCloseTag cs
  | [] => false

/-- The test of the non greedy multi line templater tag regex of
src/main.ts lines 84 and 160: it succeeds exactly when an opener occurs and
a closer starts at least two characters after the opener starts.  Scanning
from the earliest opener is complete, because any closer serving a later
opener also serves the earliest one. -/
def findTemplateTag : List Char → Bool
  | '<' :: '%' :: cs => hasCloseTag cs
  | _ :: cs => findTemplateTag cs
  | [] => false

/-- Whether the content contains a templater tag span. -/
def containsTemplateMarker (content : String) : Bool :=
  findTemplateTag content.toList

/-- All suffixes of a character list, longest first. -/
def suffixesOf : List Char → List (List Char)
  | [] => [[]]
  | c :: cs => (c :: cs) :: suffixesOf cs

/-- All prefixes of a character list. -/
def prefixesOf : List Char → List (List Char)
  | [] => [[]]
  | c :: cs => [] :: (prefixesOf cs).map (fun p => c :: p)

/-- All contiguous substrings of a string, with repetitions. -/
def substringsOf (s : String) : List String :=
  ((suffixesOf s.toList).map (fun suf => (prefixesOf suf).map String.mk)).flatten

/-- A compiled JavaScript regular expression is modelled by its language.
The test method performs an unanchored search, succeeding exactly when some
contiguous substring of the input belongs to the language; the source adds
no anchors when compiling the user patterns. -/
def regexTest (lang : String → Bool) (s : String) : Bool :=
  (substringsOf s).any lang

/-- src/main.ts lines 23..26: the filename is matched by some entry of the
compiled ignore list.  The list argument stands for the output of
getIgnoreRegexList, the languages of the patterns that compiled
successfully, in order; entries that fail to compile are dropped there with
a warning and therefore never appear in this list. -/
def isIgnoredByPattern (regexList : List (String → Bool)) (filename : String) : Bool :=
  regexList.any (fun re => regexTest re filename)

/-- Outcome of the synchronous filter stage of the create handler.  Every
constructor but the last one is an early return; the last one carries the
data captured for the delayed callback. -/
inductive FilterResult where
  | notAFile
  | noBaseDirs
  | wrongParent
  | notMarkdown
  | alreadyGuid
  | ignored
  | scheduled (filename parentPath : String)
  deriving DecidableEq

/-- The synchronous filter stage of the create handler, src/main.ts lines
36..73, in source order: file type, base directory set emptiness, parent
membership, extension, GUID stem, ignore patterns.  The source repeats the
extension comparison twice in a row; the duplicate has no further effect. -/
def createFilter (isFile : Bool) (baseDirSetting : String)
    (regexList : List (String → Bool)) (path : String) : FilterResult :=
  if !isFile then .notAFile else
  let baseDirs := normalizeBaseDirs baseDirSetting
  if baseDirs.isEmpty then .noBaseDirs else
  let parts := splitPath path
  let parentPath := joinSlash parts.dropLast
  if !(baseDirs.contains parentPath) then .wrongParent else
  if fileExtension (parts.getLastD "") != "md" then .notMarkdown else
  let filename := parts.getLastD ""
  let nameNoExt := stemOf filename
  if isGuidName nameNoExt then .alreadyGuid else
  if isIgnoredByPattern regexList filename then .ignored else
  .scheduled filename parentPath

/-- Host state as observed inside the delayed callback: whether resolving
the original path still yields a plain file, the outcome of the content
read, and the outcome of the rename request. -/
structure FreshState where
  resolvedFile : Bool
  readResult : Option String
  renameSucceeds : Bool

/-- The extension kept by the rename, src/main.ts lines 102 and 175: the
substring from the last dot to the end, dot included, or empty when the
filename has no dot. -/
def extOf (filename : String) : String :=
  let rev := filename.toList.reverse
  let suffix := rev.takeWhile (fun c => c != '.')
  if suffix.length = rev.length then "" else String.mk ('.' :: suffix.reverse)

/-- The new path computation shared by both paths, src/main.ts lines 104
and 176. -/
def newPathFor (parentPath guid ext : String) : String :=
  (if parentPath = "" then "" else parentPath ++ "/") ++ guid ++ ext

/-- Outcome of the delayed commit stage of the event path. -/
inductive CommitResult where
  | missing
  | readFailed
  | templaterSkip
  | renamed (newPath notice : String)
  | renameFailed (newPath : String)
  deriving DecidableEq

/-- The delayed commit stage of the event path, src/main.ts lines 76..114:
re-resolve the file, read fresh content, skip when a templater tag span is
present, otherwise compute the new path and request the rename.  The guid
argument stands for the identifier generated in lines 90..100. -/
def commitStep (filename parentPath guid : String) (st : FreshState) :
    CommitResult :=
  if !st.resolvedFile then .missing else
  match st.readResult with
  | none => .readFailed
  | some content =>
    if containsTemplateMarker content then .templaterSkip else
    let ext := extOf filename
    let newPath := newPathFor parentPath guid ext
    if st.renameSucceeds then
      .renamed newPath ("Renamed " ++ filename ++ " → " ++ guid ++ ext)
    else .renameFailed newPath

/-- User visible notices of the commit stage: a confirmation on success
only.  The rename failure branch of the event path, src/main.ts lines
108..110, and the read failure branch, lines 111..113, only write to the
console. -/
def commitNotices : CommitResult → List String
  | .renamed _ notice => [notice]
  | _ => []

/-- Whether the commit stage writes an error to the console. -/
def commitLogsError : CommitResult → Bool
  | .renameFailed _ => true
  | .readFailed => true
  | _ => false

/-- Outcome of the direct command path. -/
inductive CommandResult where
  | alreadyGuid
  | ignoredNotice
  | templaterNotice
  | renamed (newPath notice : String)
  | errorCaught
  deriving DecidableEq

/-- src/main.ts lines 143..183, the body of renameFileToGuid: GUID stem
check, ignore check, content read, templater tag check, then the rename.  A
read failure and a rename failure both land in the single catch block,
modelled by the same error outcome. -/
def renameFileToGuid (path guid : String) (regexList : List (String → Bool))
    (readResult : Option String) (renameSucceeds : Bool) : CommandResult :=
  let parts := splitPath path
  let filename := parts.getLastD ""
  let parentPath := joinSlash parts.dropLast
  let nameNoExt := stemOf filename
  if isGuidName nameNoExt then .alreadyGuid else
  if isIgnoredByPattern regexList filename then .ignoredNotice else
  match readResult with
  | none => .errorCaught
  | some content =>
    if containsTemplateMarker content then .templaterNotice else
    let ext := extOf filename
    let newPath := newPathFor parentPath guid ext
    if renameSucceeds then
      .renamed newPath ("Renamed " ++ filename ++ " → " ++ guid ++ ext)
    else .errorCaught

/-- User visible notices of the command path, one per outcome, with the
texts of src/main.ts lines 150, 156, 161, 178 and 181. -/
def commandNotices : CommandResult → List String
  | .alreadyGuid => ["File is already named as a GUID."]
  | .ignoredNotice => ["File matches ignore pattern; skipping GUID rename."]
  | .templaterNotice => ["File contains templater-like tags; skipping GUID rename."]
  | .renamed _ notice => [notice]
  | .errorCaught => ["Failed to rename file to GUID. See console for details."]

/-- Whether the command path writes an error to the console. -/
def commandLogsError : CommandResult → Bool
  | .errorCaught => true
  | _ => false

/-- The guard of the command registration, src/main.ts lines 125..133: the
base directory setting must be truthy and nonblank, and the active file must
exist and be a plain file. -/
def commandEnabled (baseDirSetting : String) (hasActiveTFile : Bool) : Bool :=
  if baseDirSetting = "" then false else
  if trimStr baseDirSetting = "" then false else
  hasActiveTFile

/-- One nibble printed in base sixteen, lowercase. -/
def hexChar (n : Nat) : Char :=
  if n < 10 then Char.ofNat (48 + n) else Char.ofNat (87 + n)

/-- The template of the fallback generator, src/main.ts lines 95 and 169. -/
def guidTemplate : List Char := "xxxxxxxx-xxxx-4xxx-yxxx-xxxxxxxxxxxx".toList

/-- The replacement callback of the fallback generator walking the template
left to right.  The draw at position i models the truncated scaled random
sample of lines 96 and 170, so every draw lies below sixteen; an x becomes
that nibble, a y becomes the nibble with its two top bits forced to one zero
by the masking of lines 97 and 171, and every other character is kept. -/
def fillTemplate (r : Nat → Nat) : Nat → List Char → List Char
  | _, [] => []
  | i, c :: cs =>
    (if c = 'x' then hexChar (r i)
     else if c = 'y' then hexChar (Nat.lor (Nat.land (r i) 3) 8)
     else c) :: fillTemplate r (i + 1) cs

/-- The fallback pseudo random identifier generator. -/
def fallbackGuid (r : Nat → Nat) : String :=
  String.mk (fillTemplate r 0 guidTemplate)

/-- The characters a generated identifier may contain: lowercase hex digits
and the dash. -/
def lowerHexOrDash : List Char := "0123456789abcdef-".toList

/-! ## Supporting lemmas -/

theorem mem_suffixesOf {l₂ l₁ : List Char} (h : l₂ <:+ l₁) : l₂ ∈ suffixesOf l₁ := by
  induction l₁ with
  | nil => simpa [suffixesOf] using List.eq_nil_of_suffix_nil h
  | cons c cs ih =>
    obtain ⟨t, ht⟩ := h
    cases t with
    | nil =>
      simp only [List.nil_append] at ht
      simp [suffixesOf, ht]
    | cons d ds =>
      simp only [List.cons_append] at ht
      have : l₂ <:+ cs := ⟨ds, by injection ht⟩
      simp [suffixesOf, ih this]

theorem mem_prefixesOf {l₁ l₂ : List Char} (h : l₁ <+: l₂) : l₁ ∈ prefixesOf l₂ := by
  induction l₂ generalizing l₁ with
  | nil => simpa [prefixesOf] using List.eq_nil_of_prefix_nil h
  | cons c cs ih =>
    cases l₁ with
    | nil => simp [prefixesOf]
    | cons d ds =>
      obtain ⟨t, ht⟩ := h
      simp only [List.cons_append] at ht
      have hdc : d = c := by injection ht
      have hrest : ds ++ t = cs := by injection ht
      have : ds <+: cs := ⟨t, hrest⟩
      simp only [prefixesOf, List.mem_cons, List.mem_map]
      exact Or.inr ⟨ds, ih this, by rw [hdc]⟩

theorem mem_substringsOf {u f : String} (h : u.toList <:+: f.toList) :
    u ∈ substringsOf f := by
  obtain ⟨s, t, hst⟩ := h
  have hsuf : u.toList ++ t ∈ suffixesOf f.toList :=
    mem_suffixesOf ⟨s, by rw [← hst]; simp [List.append_assoc]⟩
  have hpre : u.toList ∈ prefixesOf (u.toList ++ t) := mem_prefixesOf ⟨t, rfl⟩
  simp only [substringsOf, List.mem_flatten, List.mem_map]
  exact ⟨(prefixesOf (u.toList ++ t)).map String.mk,
    ⟨u.toList ++ t, hsuf, rfl⟩, by
      simp only [List.mem_map]
      exact ⟨u.toList, hpre, rfl⟩⟩

/-! ## Claims -/

/-- C3 counterexample: a file that is neither markdown nor inside a base
location is rejected by the location check, not the extension check, because
the source tests the parent path before the extension. -/
theorem c3_counterexample :
    createFilter true "Inbox" [] "Other/pic.png" = FilterResult.wrongParent ∧
    FilterResult.wrongParent ≠ FilterResult.notMarkdown := by
  exact ⟨by decide, by decide⟩

/-- C3 amended: on the event path the checks run in the order base set
emptiness, location, extension, already identifier, ignore rule, short
circuiting on the first failure, so the reported rejection reason is that of
the earliest failing check in this order; in particular a non markdown file
outside every base location is rejected by the location check.  The template
marker check runs later, in the delayed commit stage. -/
theorem c3_amended (baseDirSetting path : String)
    (regexList : List (String → Bool)) :
    (normalizeBaseDirs baseDirSetting = [] →
      createFilter true baseDirSetting regexList path = .noBaseDirs) ∧
    (normalizeBaseDirs baseDirSetting ≠ [] →
      parentOf path ∉ normalizeBaseDirs baseDirSetting →
      createFilter true baseDirSetting regexList path = .wrongParent) ∧
    (normalizeBaseDirs baseDirSetting ≠ [] →
      parentOf path ∈ normalizeBaseDirs baseDirSetting →
      fileExtension (fileNameOf path) ≠ "md" →
      createFilter true baseDirSetting regexList path = .notMarkdown) ∧
    (normalizeBaseDirs baseDirSetting ≠ [] →
      parentOf path ∈ normalizeBaseDirs baseDirSetting →
      fileExtension (fileNameOf path) = "md" →
      isGuidName (stemOf (fileNameOf path)) = true →
      createFilter true baseDirSetting regexList path = .alreadyGuid) ∧
    (normalizeBaseDirs baseDirSetting ≠ [] →
      parentOf path ∈ normalizeBaseDirs baseDirSetting →
      fileExtension (fileNameOf path) = "md" →
      isGuidName (stemOf (fileNameOf path)) = false →
      isIgnoredByPattern regexList (fileNameOf path) = true →
      createFilter true baseDirSetting regexList path = .ignored) ∧
    (normalizeBaseDirs baseDirSetting ≠ [] →
      parentOf path ∈ normalizeBaseDirs baseDirSetting →
      fileExtension (fileNameOf path) = "md" →
      isGuidName (stemOf (fileNameOf path)) = false →
      isIgnoredByPattern regexList (fileNameOf path) = false →
      createFilter true baseDirSetting regexList path =
        .scheduled (fileNameOf path) (parentOf path)) := by
  refine ⟨?_, ?_, ?_, ?_, ?_, ?_⟩ <;>
    intros <;>
    simp_all [createFilter, fileNameOf, parentOf, List.isEmpty_iff]

/-- C3 amended, concrete instance: a png file directly inside the base
location is rejected by the extension check. -/
theorem c3_amended_witness :
    createFilter true "Inbox" [] "Inbox/pic.png" = FilterResult.notMarkdown :=
  (c3_amended "Inbox" "Inbox/pic.png" []).2.2.1 (by decide) (by decide) (by decide)

/-- C5: when the stem of the filename already matches the canonical GUID
pattern case insensitively, the event path never schedules a rename,
whatever the configuration, and the direct command path returns the already
named outcome, which requests no rename. -/
theorem c5_guid_stem_never_renamed (baseDirSetting path guid : String)
    (regexList : List (String → Bool)) (readResult : Option String)
    (renameSucceeds isFile : Bool)
    (h : isGuidName (stemOf (fileNameOf path)) = true) :
    (∀ fn pp, createFilter isFile baseDirSetting regexList path ≠
        .scheduled fn pp) ∧
    renameFileToGuid path guid regexList readResult renameSucceeds =
      .alreadyGuid := by
  simp only [fileNameOf] at h
  constructor
  · intro fn pp hc
    simp only [createFilter] at hc
    repeat' split at hc
    all_goals simp_all
  · simp only [renameFileToGuid]
    exact if_pos h

/-- C5, concrete instance: a markdown file in the base location whose stem
is an uppercase GUID is skipped on both paths. -/
theorem c5_witness :
    (∀ fn pp, createFilter true "Inbox" []
        "Inbox/12345678-1234-4ABC-8DEF-1234567890AB.md" ≠
        FilterResult.scheduled fn pp) ∧
    renameFileToGuid "Inbox/12345678-1234-4ABC-8DEF-1234567890AB.md"
        "00000000-0000-4000-8000-000000000000" [] (some "hello") true =
      CommandResult.alreadyGuid :=
  c5_guid_stem_never_renamed "Inbox" _ _ [] (some "hello") true true (by decide)

/-- C6: whenever the event path schedules a rename, the captured parent
path is exactly the immediate parent of the file path, it is a member of the
normalized base location set, and in particular that set is nonempty; so
with an empty normalized set no document is ever scheduled. -/
theorem c6_parent_must_be_member (baseDirSetting path : String)
    (regexList : List (String → Bool)) (isFile : Bool) (fn pp : String)
    (h : createFilter isFile baseDirSetting regexList path = .scheduled fn pp) :
    pp = parentOf path ∧ pp ∈ normalizeBaseDirs baseDirSetting ∧
      normalizeBaseDirs baseDirSetting ≠ [] := by
  simp only [createFilter] at h
  split at h
  · exact FilterResult.noConfusion h
  · split at h
    · exact FilterResult.noConfusion h
    · split at h
      · exact FilterResult.noConfusion h
      · split at h
        · exact FilterResult.noConfusion h
        · split at h
          · exact FilterResult.noConfusion h
          · split at h
            · exact FilterResult.noConfusion h
            · rename_i hne hcon _ _ _
              obtain ⟨rfl, rfl⟩ : fn = (splitPath path).getLastD "" ∧
                  pp = joinSlash (splitPath path).dropLast := by
                constructor <;> injection h <;> simp_all
              refine ⟨rfl, ?_, ?_⟩
              · simp only [Bool.not_eq_true', Bool.not_eq_false] at hcon
                exact List.mem_of_elem_eq_true hcon
              · intro hnil
                rw [hnil] at hne
                simp at hne

/-- C6, concrete instance: the scheduled token of a file in the base
location carries its parent, which belongs to the normalized set. -/
theorem c6_witness :
    "Inbox" = parentOf "Inbox/Note.md" ∧
      "Inbox" ∈ normalizeBaseDirs "Inbox" ∧ normalizeBaseDirs "Inbox" ≠ [] :=
  c6_parent_must_be_member "Inbox" "Inbox/Note.md" [] true "Note.md" "Inbox"
    (by decide)

/-- C10: the compiled ignore patterns are tested against the full filename,
extension included, by an unanchored search: whenever some configured
pattern language accepts any contiguous substring of the filename, the
filename is ignored; a whole name match is not required. -/
theorem c10_substring_match_ignored (regexList : List (String → Bool))
    (re : String → Bool) (filename u : String) (hre : re ∈ regexList)
    (hinf : u.toList <:+: filename.toList) (hu : re u = true) :
    isIgnoredByPattern regexList filename = true := by
  simp only [isIgnoredByPattern, regexTest, List.any_eq_true]
  exact ⟨re, hre, u, mem_substringsOf hinf, hu⟩

/-- C10, concrete instance: the literal pattern, whose language holds
exactly one word, excludes a filename that merely contains that word, with
the extension present; the pattern does not match the whole filename. -/
theorem c10_witness :
    isIgnoredByPattern [fun s => s == "template"] "my-template.md" = true ∧
      (fun s => s == "template") "my-template.md" = false :=
  ⟨c10_substring_match_ignored [fun s => s == "template"]
      (fun s => s == "template") "my-template.md" "template"
      (List.mem_singleton.mpr rfl)
      ⟨"my-".toList, ".md".toList, by decide⟩ (by decide),
    by decide⟩

/-- C8: when the freshly read content contains a templater tag span, the
delayed commit stage of the event path skips without renaming, and the
direct command path never reaches a successful rename either, whatever the
rest of the configuration. -/
theorem c8_template_marker_blocks_rename (filename parentPath guid path : String)
    (regexList : List (String → Bool)) (renameSucceeds : Bool) (content : String)
    (h : containsTemplateMarker content = true) :
    commitStep filename parentPath guid ⟨true, some content, renameSucceeds⟩ =
        .templaterSkip ∧
    (∀ np notice, renameFileToGuid path guid regexList (some content)
        renameSucceeds ≠ .renamed np notice) := by
  constructor
  · simp [commitStep, h]
  · intro np notice hc
    simp only [renameFileToGuid] at hc
    repeat' split at hc
    all_goals simp_all

/-- C8, concrete instance: a templater expression in the content blocks the
rename on both paths even though every other check passes. -/
theorem c8_witness :
    commitStep "Draft.md" "Inbox" "00000000-0000-4000-8000-000000000000"
        ⟨true, some "x <% tp.date.now() %> y", true⟩ =
        CommitResult.templaterSkip ∧
    (∀ np notice, renameFileToGuid "Inbox/Draft.md"
        "00000000-0000-4000-8000-000000000000" []
        (some "x <% tp.date.now() %> y") true ≠ CommandResult.renamed np notice) :=
  c8_template_marker_blocks_rename "Draft.md" "Inbox"
    "00000000-0000-4000-8000-000000000000" "Inbox/Draft.md" [] true
    "x <% tp.date.now() %> y" (by decide)

/-- C2 counterexample: on the event path a failed rename produces no user
visible notice; the catch block of src/main.ts lines 108..110 only writes to
the console, unlike the command path. -/
theorem c2_counterexample :
    commitStep "Note.md" "Inbox" "12345678-1234-4abc-8def-1234567890ab"
        ⟨true, some "hello", false⟩ =
      CommitResult.renameFailed
        "Inbox/12345678-1234-4abc-8def-1234567890ab.md" ∧
    commitNotices (CommitResult.renameFailed
        "Inbox/12345678-1234-4abc-8def-1234567890ab.md") = [] :=
  ⟨by decide, rfl⟩

/-- C2 amended: when the rename request fails, the error is logged on both
paths and the document stays under its original name with no retry, but a
user visible failure notice is surfaced only on the direct command path; the
event path failure is logged to the console alone. -/
theorem c2_amended (filename parentPath guid path : String)
    (regexList : List (String → Bool)) (content : String)
    (hm : containsTemplateMarker content = false)
    (hg : isGuidName (stemOf (fileNameOf path)) = false)
    (hi : isIgnoredByPattern regexList (fileNameOf path) = false) :
    (commitStep filename parentPath guid ⟨true, some content, false⟩ =
        .renameFailed (newPathFor parentPath guid (extOf filename)) ∧
      commitNotices
        (commitStep filename parentPath guid ⟨true, some content, false⟩) = [] ∧
      commitLogsError
        (commitStep filename parentPath guid ⟨true, some content, false⟩) = true) ∧
    (renameFileToGuid path guid regexList (some content) false = .errorCaught ∧
      commandNotices (renameFileToGuid path guid regexList (some content) false) =
        ["Failed to rename file to GUID. See console for details."] ∧
      commandLogsError
        (renameFileToGuid path guid regexList (some content) false) = true) := by
  simp only [fileNameOf] at hg hi
  have hcommand : renameFileToGuid path guid regexList (some content) false =
      .errorCaught := by
    simp_all [renameFileToGuid]
  have hcommit : commitStep filename parentPath guid ⟨true, some content, false⟩ =
      .renameFailed (newPathFor parentPath guid (extOf filename)) := by
    simp [commitStep, hm]
  refine ⟨⟨hcommit, ?_, ?_⟩, hcommand, ?_, ?_⟩
  · rw [hcommit]; rfl
  · rw [hcommit]; rfl
  · rw [hcommand]; rfl
  · rw [hcommand]; rfl

/-- C2 amended, concrete instance. -/
theorem c2_amended_witness :
    (commitStep "Note.md" "Inbox" "12345678-1234-4abc-8def-1234567890ab"
        ⟨true, some "hello", false⟩ =
        CommitResult.renameFailed
          (newPathFor "Inbox" "12345678-1234-4abc-8def-1234567890ab"
            (extOf "Note.md")) ∧
      commitNotices (commitStep "Note.md" "Inbox"
        "12345678-1234-4abc-8def-1234567890ab"
        ⟨true, some "hello", false⟩) = [] ∧
      commitLogsError (commitStep "Note.md" "Inbox"
        "12345678-1234-4abc-8def-1234567890ab"
        ⟨true, some "hello", false⟩) = true) ∧
    (renameFileToGuid "Inbox/Note.md" "12345678-1234-4abc-8def-1234567890ab"
        [] (some "hello") false = CommandResult.errorCaught ∧
      commandNotices (renameFileToGuid "Inbox/Note.md"
        "12345678-1234-4abc-8def-1234567890ab" [] (some "hello") false) =
        ["Failed to rename file to GUID. See console for details."] ∧
      commandLogsError (renameFileToGuid "Inbox/Note.md"
        "12345678-1234-4abc-8def-1234567890ab" [] (some "hello") false) = true) :=
  c2_amended "Note.md" "Inbox" "12345678-1234-4abc-8def-1234567890ab"
    "Inbox/Note.md" [] "hello" (by decide) (by decide) (by decide)

/-- C1 counterexample: the delayed commit stage takes no configuration at
all, so with a configuration under which the ignore rule check rejects the
filename at commit time, the rename still goes through; the five checks are
therefore not all re-evaluated at commit time. -/
theorem c1_counterexample :
    isIgnoredByPattern [fun s => s == "Note.md"] "Note.md" = true ∧
    commitStep "Note.md" "Inbox" "12345678-1234-4abc-8def-1234567890ab"
        ⟨true, some "hello", true⟩ =
      CommitResult.renamed "Inbox/12345678-1234-4abc-8def-1234567890ab.md"
        "Renamed Note.md → 12345678-1234-4abc-8def-1234567890ab.md" :=
  ⟨by decide, by decide⟩

/-- C1 amended: at commit time exactly two conditions are re-evaluated
against fresh host state, resolvability of the original path to a plain
file and the template marker check against freshly read content; the
extension, location, already identifier and ignore rule checks run only at
filter time and are not re-run, the commit stage receiving no configuration
at all.  A read failure aborts silently. -/
theorem c1_amended (filename parentPath guid : String) (st : FreshState) :
    (st.resolvedFile = false → commitStep filename parentPath guid st = .missing) ∧
    (st.resolvedFile = true → st.readResult = none →
      commitStep filename parentPath guid st = .readFailed) ∧
    (∀ content, st.resolvedFile = true → st.readResult = some content →
      containsTemplateMarker content = true →
      commitStep filename parentPath guid st = .templaterSkip) ∧
    (∀ content, st.resolvedFile = true → st.readResult = some content →
      containsTemplateMarker content = false →
      commitStep filename parentPath guid st =
        if st.renameSucceeds then
          .renamed (newPathFor parentPath guid (extOf filename))
            ("Renamed " ++ filename ++ " → " ++ guid ++ extOf filename)
        else .renameFailed (newPathFor parentPath guid (extOf filename))) := by
  obtain ⟨rf, rr, rs⟩ := st
  refine ⟨?_, ?_, ?_, ?_⟩ <;> intros <;> simp_all [commitStep]

/-- C1 amended, concrete instance: a file whose extension and location would
now fail the filter is still renamed at commit time, the commit stage
rechecking neither. -/
theorem c1_amended_witness :
    commitStep "pic.png" "Other" "12345678-1234-4abc-8def-1234567890ab"
        ⟨true, some "hello", true⟩ =
      if (true : Bool) then
        CommitResult.renamed
          (newPathFor "Other" "12345678-1234-4abc-8def-1234567890ab"
            (extOf "pic.png"))
          ("Renamed pic.png → 12345678-1234-4abc-8def-1234567890ab" ++
            extOf "pic.png")
      else
        CommitResult.renameFailed
          (newPathFor "Other" "12345678-1234-4abc-8def-1234567890ab"
            (extOf "pic.png")) :=
  (c1_amended "pic.png" "Other" "12345678-1234-4abc-8def-1234567890ab"
    ⟨true, some "hello", true⟩).2.2.2 "hello" rfl rfl (by decide)

/-- C4 counterexample: a base directory setting consisting of a lone comma
is nonblank, so the command stays enabled, while the normalized base
location set is empty, so no base location is configured. -/
theorem c4_counterexample :
    commandEnabled "," true = true ∧ normalizeBaseDirs "," = [] :=
  ⟨by decide, by decide⟩

/-- C4 amended: the command is enabled only when the raw base directory
setting is nonblank after trimming, a weaker condition than the normalized
base location set being nonempty, and an active plain file exists; when it
runs it applies no location check at all, the last conjunct holding for
every path, but still applies the already identifier, ignore pattern and
template marker checks before renaming. -/
theorem c4_amended (baseDirSetting path guid : String) (hasActiveTFile : Bool)
    (regexList : List (String → Bool)) (content : String)
    (renameSucceeds : Bool) :
    (commandEnabled baseDirSetting hasActiveTFile = true →
      trimStr baseDirSetting ≠ "" ∧ hasActiveTFile = true) ∧
    (isGuidName (stemOf (fileNameOf path)) = true →
      renameFileToGuid path guid regexList (some content) renameSucceeds =
        .alreadyGuid) ∧
    (isGuidName (stemOf (fileNameOf path)) = false →
      isIgnoredByPattern regexList (fileNameOf path) = true →
      renameFileToGuid path guid regexList (some content) renameSucceeds =
        .ignoredNotice) ∧
    (isGuidName (stemOf (fileNameOf path)) = false →
      isIgnoredByPattern regexList (fileNameOf path) = false →
      containsTemplateMarker content = true →
      renameFileToGuid path guid regexList (some content) renameSucceeds =
        .templaterNotice) ∧
    (isGuidName (stemOf (fileNameOf path)) = false →
      isIgnoredByPattern regexList (fileNameOf path) = false →
      containsTemplateMarker content = false →
      renameFileToGuid path guid regexList (some content) true =
        .renamed (newPathFor (parentOf path) guid (extOf (fileNameOf path)))
          ("Renamed " ++ fileNameOf path ++ " → " ++ guid ++
            extOf (fileNameOf path))) := by
  refine ⟨?_, ?_, ?_, ?_, ?_⟩
  · intro h
    unfold commandEnabled at h
    split at h
    · exact absurd h (by simp)
    · split at h
      · exact absurd h (by simp)
      · exact ⟨by assumption, h⟩
  all_goals
    intros
    simp_all [renameFileToGuid, fileNameOf, parentOf]

/-- C4 amended, concrete instance: the command renames a file whose parent
is not a configured base location, applying no location check. -/
theorem c4_amended_witness :
    renameFileToGuid "Other/Note.md" "12345678-1234-4abc-8def-1234567890ab"
        [] (some "hello") true =
      CommandResult.renamed
        (newPathFor (parentOf "Other/Note.md")
          "12345678-1234-4abc-8def-1234567890ab"
          (extOf (fileNameOf "Other/Note.md")))
        ("Renamed " ++ fileNameOf "Other/Note.md" ++ " → " ++
          "12345678-1234-4abc-8def-1234567890ab" ++
          extOf (fileNameOf "Other/Note.md")) :=
  (c4_amended "Inbox" "Other/Note.md" "12345678-1234-4abc-8def-1234567890ab"
    true [] "hello" true).2.2.2.2 (by decide) (by decide) (by decide)

theorem hexChar_hex {n : Nat} (h : n < 16) : isHexDigit (hexChar n) = true := by
  interval_cases n <;> decide

theorem hexChar_lower {n : Nat} (h : n < 16) : hexChar n ∈ lowerHexOrDash := by
  interval_cases n <;> decide

theorem yNibble_lt {n : Nat} (h : n < 16) : Nat.lor (Nat.land n 3) 8 < 16 := by
  interval_cases n <;> decide

theorem fillTemplate_length (r : Nat → Nat) (i : Nat) (t : List Char) :
    (fillTemplate r i t).length = t.length := by
  induction t generalizing i with
  | nil => rfl
  | cons c cs ih => simp [fillTemplate, ih]

theorem guidTemplate_chars :
    ∀ c ∈ guidTemplate, c = 'x' ∨ c = 'y' ∨ c ∈ lowerHexOrDash := by decide

theorem fillTemplate_chars (r : Nat → Nat) (hr : ∀ i, r i < 16) (j : Nat)
    (t : List Char) (ht : ∀ c ∈ t, c = 'x' ∨ c = 'y' ∨ c ∈ lowerHexOrDash) :
    ∀ c ∈ fillTemplate r j t, c ∈ lowerHexOrDash := by
  induction t generalizing j with
  | nil => simp [fillTemplate]
  | cons a as ih =>
    intro c hc
    simp only [fillTemplate, List.mem_cons] at hc
    rcases hc with hc | hc
    · subst hc
      by_cases hx : a = 'x'
      · simpa [hx] using hexChar_lower (hr j)
      · by_cases hy : a = 'y'
        · simpa [hx, hy] using hexChar_lower (yNibble_lt (hr j))
        · have hmem := ht a (by simp)
          simp only [hx, hy, false_or] at hmem
          simpa [hx, hy] using hmem
    · exact ih (j + 1) (fun d hd => ht d (by simp [hd])) c hc

theorem fillTemplate_guidTemplate (r : Nat → Nat) :
    fillTemplate r 0 guidTemplate =
      [hexChar (r 0), hexChar (r 1), hexChar (r 2), hexChar (r 3),
       hexChar (r 4), hexChar (r 5), hexChar (r 6), hexChar (r 7), '-',
       hexChar (r 9), hexChar (r 10), hexChar (r 11), hexChar (r 12), '-',
       '4', hexChar (r 15), hexChar (r 16), hexChar (r 17), '-',
       hexChar (Nat.lor (Nat.land (r 19) 3) 8),
       hexChar (r 20), hexChar (r 21), hexChar (r 22), '-',
       hexChar (r 24), hexChar (r 25), hexChar (r 26), hexChar (r 27),
       hexChar (r 28), hexChar (r 29), hexChar (r 30), hexChar (r 31),
       hexChar (r 32), hexChar (r 33), hexChar (r 34), hexChar (r 35)] := rfl

/-- C7: every identifier produced by the fallback pseudo random generator,
whatever the sequence of nibble draws, has exactly thirty six characters,
matches the canonical 8-4-4-4-12 hex identifier pattern, and consists only
of lowercase hex digits and dashes. -/
theorem c7_fallback_guid_format (r : Nat → Nat) (hr : ∀ i, r i < 16) :
    (fallbackGuid r).length = 36 ∧
    isGuidName (fallbackGuid r) = true ∧
    ∀ c ∈ (fallbackGuid r).toList, c ∈ lowerHexOrDash := by
  have hlen : (fillTemplate r 0 guidTemplate).length = 36 := by
    rw [fillTemplate_length]; rfl
  refine ⟨hlen, ?_, ?_⟩
  · show ((fillTemplate r 0 guidTemplate).length == 36 &&
      (List.range 36).all (fun i =>
        if i ∈ dashPositions then
          (fillTemplate r 0 guidTemplate).getD i ' ' == '-'
        else isHexDigit ((fillTemplate r 0 guidTemplate).getD i ' '))) = true
    rw [Bool.and_eq_true, List.all_eq_true]
    refine ⟨by simp [hlen], ?_⟩
    intro i hi
    rw [List.mem_range] at hi
    rw [fillTemplate_guidTemplate]
    interval_cases i <;>
      (simp [dashPositions, hexChar_hex, yNibble_lt, hr]; try decide)
  · exact fillTemplate_chars r hr 0 guidTemplate guidTemplate_chars

/-- C7, concrete instance: the all zero draw sequence. -/
theorem c7_witness :
    (fallbackGuid (fun _ => 0)).length = 36 ∧
    isGuidName (fallbackGuid (fun _ => 0)) = true ∧
    ∀ c ∈ (fallbackGuid (fun _ => 0)).toList, c ∈ lowerHexOrDash :=
  c7_fallback_guid_format (fun _ => 0) (fun _ => Nat.zero_lt_succ 15)

theorem splitOnChar_ne_nil (sep : Char) (l : List Char) :
    splitOnChar sep l ≠ [] := by
  cases l with
  | nil => simp [splitOnChar]
  | cons c cs =>
    rcases h : splitOnChar sep cs with _ | ⟨g, gs⟩
    · simp [splitOnChar, h]
    · simp only [splitOnChar, h]
      split <;> simp

theorem splitOnChar_append (sep : Char) (xs ys : List Char) :
    splitOnChar sep (xs ++ sep :: ys) =
      splitOnChar sep xs ++ splitOnChar sep ys := by
  induction xs with
  | nil =>
    rcases h : splitOnChar sep ys with _ | ⟨g, gs⟩
    · exact absurd h (splitOnChar_ne_nil sep ys)
    · simp [splitOnChar, h]
  | cons c cs ih =>
    rcases h : splitOnChar sep (cs ++ sep :: ys) with _ | ⟨g, gs⟩
    · exact absurd h (splitOnChar_ne_nil sep _)
    · rcases h2 : splitOnChar sep cs with _ | ⟨g2, gs2⟩
      · exact absurd h2 (splitOnChar_ne_nil sep cs)
      · rw [h2, h] at ih
        simp only [List.cons_append, splitOnChar, h, h2]
        by_cases hc : c = sep <;> simp [hc, ih, h]

theorem splitOnChar_eq_single {sep : Char} {ys : List Char} (h : sep ∉ ys) :
    splitOnChar sep ys = [ys] := by
  induction ys with
  | nil => rfl
  | cons c cs ih =>
    have hc : ¬c = sep := fun e => h (by simp [e])
    have hcs : sep ∉ cs := fun e => h (by simp [e])
    simp [splitOnChar, ih hcs, hc]

theorem joinWithChar_splitOnChar (sep : Char) (l : List Char) :
    joinWithChar sep (splitOnChar sep l) = l := by
  induction l with
  | nil => rfl
  | cons c cs ih =>
    rcases h : splitOnChar sep cs with _ | ⟨g, gs⟩
    · exact absurd h (splitOnChar_ne_nil sep cs)
    · rw [h] at ih
      by_cases hc : c = sep
      · subst hc
        simp only [splitOnChar, h, if_pos rfl]
        simpa [joinWithChar] using ih
      · cases gs with
        | nil => simp_all [splitOnChar, joinWithChar, h]
        | cons g2 gs2 => simp_all [splitOnChar, joinWithChar, h]

theorem not_mem_of_mem_splitOnChar {sep : Char} {l g : List Char}
    (hg : g ∈ splitOnChar sep l) : sep ∉ g := by
  induction l generalizing g with
  | nil =>
    simp only [splitOnChar, List.mem_singleton] at hg
    simp [hg]
  | cons c cs ih =>
    obtain ⟨g1, gs, h⟩ : ∃ g1 gs, splitOnChar sep cs = g1 :: gs := by
      rcases e : splitOnChar sep cs with _ | ⟨a, b⟩
      · exact absurd e (splitOnChar_ne_nil sep cs)
      · exact ⟨a, b, rfl⟩
    rw [splitOnChar, h] at hg
    by_cases hc : c = sep
    · subst hc
      simp at hg
      rcases hg with rfl | hg
      · simp
      · exact ih (by rw [h]; exact List.mem_cons.mpr hg)
    · simp only [if_neg hc, List.mem_cons] at hg
      rcases hg with rfl | hg
      · have h1 : sep ∉ g1 := ih (by rw [h]; exact List.mem_cons_self _ _)
        intro hmem
        rcases List.mem_cons.mp hmem with rfl | hmem
        · exact hc rfl
        · exact h1 hmem
      · exact ih (by rw [h]; exact List.mem_cons_of_mem _ hg)

theorem joinSlash_map_mk (l : List (List Char)) :
    joinSlash (l.map String.mk) = String.mk (joinWithChar '/' l) := by
  induction l with
  | nil => rfl
  | cons g gs ih =>
    cases gs with
    | nil => rfl
    | cons g2 gs2 =>
      simp only [List.map_cons] at *
      show String.mk g ++ "/" ++
          joinSlash (String.mk g2 :: List.map String.mk gs2) =
        String.mk (g ++ '/' :: joinWithChar '/' (g2 :: gs2))
      rw [ih]
      show String.mk ((g ++ ['/']) ++ joinWithChar '/' (g2 :: gs2)) =
        String.mk (g ++ '/' :: joinWithChar '/' (g2 :: gs2))
      rw [List.append_assoc]
      rfl

theorem getLastD_map_mk (l : List (List Char)) :
    ∀ (d : List Char), (l.map String.mk).getLastD (String.mk d) =
      String.mk (l.getLastD d) := by
  induction l with
  | nil => intro d; rfl
  | cons g gs ih =>
    intro d
    simp only [List.map_cons, List.getLastD_cons]
    exact ih g

theorem getLastD_mem_cons (gs : List (List Char)) :
    ∀ (g d : List Char), (g :: gs).getLastD d ∈ g :: gs := by
  induction gs with
  | nil => intro g d; simp [List.getLastD_cons]
  | cons g2 gs2 ih =>
    intro g d
    rw [List.getLastD_cons]
    exact List.mem_cons_of_mem _ (ih g2 g)

theorem fileNameOf_parts (path : String) :
    ∃ g ∈ splitOnChar '/' path.toList, fileNameOf path = String.mk g := by
  rcases h : splitOnChar '/' path.toList with _ | ⟨g, gs⟩
  · exact absurd h (splitOnChar_ne_nil _ _)
  · refine ⟨(g :: gs).getLastD [], getLastD_mem_cons gs g [], ?_⟩
    unfold fileNameOf splitPath
    rw [h]
    exact getLastD_map_mk (g :: gs) []

theorem takeWhile_append_eq {p : Char → Bool} {a : List Char} (x : Char)
    (b : List Char) (ha : ∀ c ∈ a, p c = true) (hx : p x = false) :
    (a ++ x :: b).takeWhile p = a := by
  induction a with
  | nil => simp [List.takeWhile_cons, hx]
  | cons c cs ih =>
    have hc : p c = true := ha c (by simp)
    simp [List.takeWhile_cons, hc, ih (fun d hd => ha d (by simp [hd]))]

theorem extOf_structure (f : String) :
    extOf f = "" ∨ ∃ t : List Char, (extOf f).toList = '.' :: t ∧ '.' ∉ t ∧
      ∀ c ∈ t, c ∈ f.toList := by
  simp only [extOf]
  split
  · exact Or.inl rfl
  · right
    refine ⟨(f.toList.reverse.takeWhile (fun c => c != '.')).reverse, rfl, ?_, ?_⟩
    · intro hdot
      rw [List.mem_reverse] at hdot
      have := List.mem_takeWhile_imp hdot
      simp at this
    · intro c hc
      rw [List.mem_reverse] at hc
      have := (List.takeWhile_sublist (fun c => c != '.')).subset hc
      rw [List.mem_reverse] at this
      exact this

theorem extOf_append {g e : List Char} (hg : '.' ∉ g)
    (he : e = [] ∨ ∃ t, e = '.' :: t ∧ '.' ∉ t) :
    extOf (String.mk (g ++ e)) = String.mk e := by
  rcases he with rfl | ⟨t, rfl, ht⟩
  · simp only [extOf, List.append_nil]
    have hall : (String.mk g).toList.reverse.takeWhile (fun c => c != '.') =
        (String.mk g).toList.reverse := by
      refine List.takeWhile_eq_self_iff.mpr ?_
      intro c hc
      rw [List.mem_reverse] at hc
      simpa using ne_of_mem_of_not_mem hc hg
    rw [hall, if_pos rfl]
  · simp only [extOf]
    have hrev : (String.mk (g ++ '.' :: t)).toList.reverse =
        t.reverse ++ '.' :: g.reverse := by
      show (g ++ '.' :: t).reverse = t.reverse ++ '.' :: g.reverse
      simp
    rw [hrev]
    have htw : (t.reverse ++ '.' :: g.reverse).takeWhile (fun c => c != '.') =
        t.reverse := by
      apply takeWhile_append_eq
      · intro c hc
        rw [List.mem_reverse] at hc
        simpa using ne_of_mem_of_not_mem hc ht
      · simp
    rw [htw]
    have hlen : ¬t.reverse.length = (t.reverse ++ '.' :: g.reverse).length := by
      simp
    rw [if_neg hlen]
    simp

theorem isHexDigit_ne_dot {c : Char} (h : isHexDigit c = true) : c ≠ '.' := by
  rintro rfl; revert h; decide

theorem isHexDigit_ne_slash {c : Char} (h : isHexDigit c = true) : c ≠ '/' := by
  rintro rfl; revert h; decide

theorem isGuidName_chars {g : String} (hg : isGuidName g = true) :
    ∀ c ∈ g.toList, c ≠ '.' ∧ c ≠ '/' := by
  intro c hc
  simp only [isGuidName, Bool.and_eq_true, beq_iff_eq, List.all_eq_true] at hg
  obtain ⟨hlen, hall⟩ := hg
  rw [List.mem_iff_getElem] at hc
  obtain ⟨i, hi, hci⟩ := hc
  have hi36 : i < 36 := by rw [← hlen]; exact hi
  have hp := hall i (List.mem_range.mpr hi36)
  rw [List.getD_eq_getElem _ _ hi, hci] at hp
  split at hp
  · rw [beq_iff_eq] at hp
    subst hp
    exact ⟨by decide, by decide⟩
  · exact ⟨isHexDigit_ne_dot hp, isHexDigit_ne_slash hp⟩

theorem extOf_no_slash {f : String} (hf : '/' ∉ f.toList) :
    '/' ∉ (extOf f).toList := by
  rcases extOf_structure f with h | ⟨t, h, _, hsub⟩
  · rw [h]; simp
  · rw [h]
    intro hmem
    rcases List.mem_cons.mp hmem with h1 | h1
    · exact absurd h1 (by decide)
    · exact hf (hsub '/' h1)

theorem parentOf_newPath (P fn : String) (hfn : '/' ∉ fn.toList) :
    parentOf ((if P = "" then "" else P ++ "/") ++ fn) = P ∧
    fileNameOf ((if P = "" then "" else P ++ "/") ++ fn) = fn := by
  by_cases hP : P = ""
  · subst hP
    rw [if_pos rfl]
    have hsplit : splitOnChar '/' (("" ++ fn).toList) = [fn.toList] := by
      show splitOnChar '/' fn.toList = [fn.toList]
      exact splitOnChar_eq_single hfn
    constructor
    · unfold parentOf splitPath
      rw [hsplit]
      rfl
    · unfold fileNameOf splitPath
      rw [hsplit]
      rfl
  · rw [if_neg hP]
    have htl : (P ++ "/" ++ fn).toList = P.toList ++ '/' :: fn.toList := by
      show (P.toList ++ ['/']) ++ fn.toList = P.toList ++ '/' :: fn.toList
      rw [List.append_assoc]
      rfl
    have hsplit : splitOnChar '/' ((P ++ "/" ++ fn).toList) =
        splitOnChar '/' P.toList ++ [fn.toList] := by
      rw [htl, splitOnChar_append, splitOnChar_eq_single hfn]
    constructor
    · unfold parentOf splitPath
      rw [hsplit, List.map_append]
      show joinSlash (((splitOnChar '/' P.toList).map String.mk) ++
        [String.mk fn.toList]).dropLast = P
      rw [List.dropLast_concat, joinSlash_map_mk, joinWithChar_splitOnChar]
      rfl
    · unfold fileNameOf splitPath
      rw [hsplit, List.map_append]
      show (((splitOnChar '/' P.toList).map String.mk) ++
        [String.mk fn.toList]).getLastD "" = fn
      rw [List.getLastD_concat]
      rfl

/-- C9: whenever either path reports a committed rename, the new path is
the original parent, a slash when that parent is nonempty, the generated
identifier, then the original final extension: the renamed document keeps
its original immediate parent path and its original final extension, and
its new filename is exactly the identifier followed by that extension. -/
theorem c9_new_path_shape (path guid np notice : String) (st : FreshState)
    (regexList : List (String → Bool)) (readResult : Option String)
    (renameSucceeds : Bool) (hg : isGuidName guid = true)
    (h : commitStep (fileNameOf path) (parentOf path) guid st =
          .renamed np notice ∨
        renameFileToGuid path guid regexList readResult renameSucceeds =
          .renamed np notice) :
    np = newPathFor (parentOf path) guid (extOf (fileNameOf path)) ∧
    parentOf np = parentOf path ∧
    fileNameOf np = guid ++ extOf (fileNameOf path) ∧
    extOf (fileNameOf np) = extOf (fileNameOf path) := by
  have hnp : np = newPathFor (parentOf path) guid (extOf (fileNameOf path)) := by
    rcases h with h | h
    · simp only [commitStep] at h
      repeat' split at h
      all_goals simp_all [fileNameOf, parentOf]
    · simp only [renameFileToGuid] at h
      repeat' split at h
      all_goals simp_all [fileNameOf, parentOf]
  obtain ⟨gpart, hgmem, hgeq⟩ := fileNameOf_parts path
  have hfn_slash : '/' ∉ (fileNameOf path).toList := by
    rw [hgeq]
    exact not_mem_of_mem_splitOnChar hgmem
  have hguid_chars := isGuidName_chars hg
  have hF_slash : '/' ∉ (guid ++ extOf (fileNameOf path)).toList := by
    intro hmem
    rcases List.mem_append.mp hmem with hm | hm
    · exact (hguid_chars '/' hm).2 rfl
    · exact extOf_no_slash hfn_slash hm
  have hassoc : newPathFor (parentOf path) guid (extOf (fileNameOf path)) =
      (if parentOf path = "" then "" else parentOf path ++ "/") ++
        (guid ++ extOf (fileNameOf path)) := by
    simp only [newPathFor, String.append_assoc]
  have hparts := parentOf_newPath (parentOf path)
    (guid ++ extOf (fileNameOf path)) hF_slash
  have hext_pres : extOf (guid ++ extOf (fileNameOf path)) =
      extOf (fileNameOf path) := by
    have hgd : '.' ∉ guid.toList := fun hm => (hguid_chars '.' hm).1 rfl
    have hstruct : (extOf (fileNameOf path)).toList = [] ∨
        ∃ t, (extOf (fileNameOf path)).toList = '.' :: t ∧ '.' ∉ t := by
      rcases extOf_structure (fileNameOf path) with he | ⟨t, he, hdt, _⟩
      · left; rw [he]; rfl
      · right; exact ⟨t, he, hdt⟩
    exact extOf_append hgd hstruct
  refine ⟨hnp, ?_, ?_, ?_⟩
  · rw [hnp, hassoc]; exact hparts.1
  · rw [hnp, hassoc]; exact hparts.2
  · rw [hnp, hassoc, hparts.2]; exact hext_pres

/-- C9, concrete instance: a commit in the base location keeps the parent
and the markdown extension, replacing only the stem. -/
theorem c9_witness :
    "Inbox/12345678-1234-4abc-8def-1234567890ab.md" =
      newPathFor (parentOf "Inbox/Note.md")
        "12345678-1234-4abc-8def-1234567890ab"
        (extOf (fileNameOf "Inbox/Note.md")) ∧
    parentOf "Inbox/12345678-1234-4abc-8def-1234567890ab.md" =
      parentOf "Inbox/Note.md" ∧
    fileNameOf "Inbox/12345678-1234-4abc-8def-1234567890ab.md" =
      "12345678-1234-4abc-8def-1234567890ab" ++
        extOf (fileNameOf "Inbox/Note.md") ∧
    extOf (fileNameOf "Inbox/12345678-1234-4abc-8def-1234567890ab.md") =
      extOf (fileNameOf "Inbox/Note.md") :=
  c9_new_path_shape "Inbox/Note.md" "12345678-1234-4abc-8def-1234567890ab"
    "Inbox/12345678-1234-4abc-8def-1234567890ab.md"
    "Renamed Note.md → 12345678-1234-4abc-8def-1234567890ab.md"
    ⟨true, some "hello", true⟩ [] (some "hello") true (by decide)
    (Or.inl (by decide))

end Guidify
